import Mathlib

/-!
Verification of the gsvi hierarchical re-normalization algorithm.

Shallow embedding of `src/gsvi/timeseries.py` (class `SVSeries`) and
`src/gsvi/connection.py` (class `GoogleConnection`).

Modelling conventions:
* Instants are integer ticks at the resolution of the requested granularity:
  days for `DAY` and `MONTH`, hours for `HOUR`.  Tick 0 is 2004-01-01, the
  earliest date the bounds setter accepts.  A `datetime.timedelta` subtraction
  `(b1 - b0).days` therefore becomes `b1 - b0` for DAY/MONTH and
  `(b1 - b0) / 24` for HOUR; the per-granularity offset (1 day resp. 1 hour)
  is one tick in every branch.
* The upstream (Google Trends) is abstracted as an oracle function from a
  comparison request to a list of series; the network itself is not modelled.
* A pandas series becomes a list of (instant, value) pairs with rational
  values; a returned frame becomes a list of named series.
* Python exceptions become `Except` values, named after the error taxonomy
  the spec gives to the failures of this code (`ValueError` raised by
  `get_timeseries` on more than 5 queries is `validationError`; the
  `ValueError` raised by `_get_max_request` when no series reaches 100 is
  `algorithmError`).
* Loops whose termination is by a decreasing integer pointer are written with
  an explicit fuel so that every definition evaluates inside the kernel; the
  fuel supplied is always proved (or chosen) sufficient.
-/

namespace Gsvi

/-- The series granularity, either DAY, HOUR or MONTH (`SVSeries.granularity`). -/
inductive Granularity
  | DAY
  | HOUR
  | MONTH
deriving DecidableEq

/-- A user query dict `{'key': ..., 'geo': ...}` as stored in `SVSeries.queries`. -/
structure Query where
  key : String
  geo : String
deriving DecidableEq

/-- A query fragment: a query dict merged with a `'range'` entry, the unit sent
upstream (`{**query, **{'range': interval}}` in `get_data`). -/
structure Fragment where
  key : String
  geo : String
  range : Int × Int
deriving DecidableEq

/-- A time series: chronologically keyed (instant, value) pairs (a `pd.Series`). -/
abbrev Series := List (Int × ℚ)

/-- The result of `get_data`: one named series per keyword (a `pd.Series` for one
keyword, the columns of a `pd.DataFrame` otherwise). -/
abbrev Data := List (String × Series)

/-- The error taxonomy for the failures of this code. -/
inductive GsviErr
  | validationError
  | algorithmError
deriving DecidableEq

/-- One upstream comparison request at the `get_timeseries` interface: the
fragment list together with the `category` and `granularity` arguments. -/
structure CallRec where
  frags : List Fragment
  category : Nat
  granularity : Granularity
deriving DecidableEq

/-- Observable side effects of `get_data`: an upstream call, a `time.sleep`
of the given number of seconds, or a `warnings.warn` about truncation. -/
inductive Event
  | call : CallRec → Event
  | sleep : ℚ → Event
  | warn : Event
deriving DecidableEq

/-- Is this event an upstream call? -/
def isCall : Event → Bool
  | .call _ => true
  | _ => false

/-- Is this event a sleep? -/
def isSleep : Event → Bool
  | .sleep _ => true
  | _ => false

/-- The upstream oracle at the `GoogleConnection.get_timeseries` interface:
maps a comparison request to the list of returned series (one per fragment). -/
abbrev Conn := CallRec → List Series

/-! ## The upstream client (`src/gsvi/connection.py`) -/

/-- One entry of the `comparisonItem` array of the explore request payload.
The window is kept as a raw tick pair; its strftime rendering per granularity
carries no further information at this level. -/
structure ComparisonItem where
  keyword : String
  timeRange : Int × Int
  geo : String
deriving DecidableEq

/-- The network below `get_timeseries`: explore payload plus category and
granularity in, series out (`_get_explore` followed by `_get_timeseries`). -/
abbrev Net := List ComparisonItem → Nat → Granularity → List Series

/-- Python's `str.upper()` on the region codes: per-character upper-casing
(the codes are ASCII, where this matches `str.upper` exactly). -/
def strUpper (s : String) : String :=
  { data := s.data.map Char.toUpper }

/-- The payload built by `get_timeseries` lines 183-189: keyword passed through,
range passed through, geo upper-cased (`query['geo'].upper()`). -/
def exploreItems (queries : List Fragment) : List ComparisonItem :=
  queries.map fun q => { keyword := q.key, timeRange := q.range, geo := strUpper q.geo }

/-- Decidable equality for upstream results. -/
instance exceptDecEq {ε α : Type} [DecidableEq ε] [DecidableEq α] :
    DecidableEq (Except ε α) := fun x y =>
  match x, y with
  | .ok a, .ok b =>
    if h : a = b then isTrue (by rw [h]) else isFalse (by intro hc; cases hc; exact h rfl)
  | .error a, .error b =>
    if h : a = b then isTrue (by rw [h]) else isFalse (by intro hc; cases hc; exact h rfl)
  | .ok _, .error _ => isFalse (by intro hc; cases hc)
  | .error _, .ok _ => isFalse (by intro hc; cases hc)

/-- `GoogleConnection.get_timeseries`: raises `ValueError` for more than 5
queries before anything else happens, otherwise builds the explore payload and
performs the request pair. -/
def get_timeseries (net : Net) (queries : List Fragment)
    (category : Nat) (granularity : Granularity) : Except GsviErr (List Series) :=
  if 5 < queries.length then .error .validationError
  else .ok (net (exploreItems queries) category granularity)

/-! ## Container state (`SVSeries` attributes and setters) -/

/-- The `SVSeries` container: queries, bounds, granularity, category, the
cached data, the consistency flag and the retained request structure. -/
structure SVSeries where
  queries : List Query
  bounds : Int × Int
  granularity : Granularity
  category : Nat
  data : Option Data
  is_consistent : Bool
  request_structure : Option (List (List Fragment))
deriving DecidableEq

/-- The `queries` setter: stores the new value and clears the flag. -/
def SVSeries.setQueries (s : SVSeries) (q : List Query) : SVSeries :=
  { s with queries := q, is_consistent := false }

/-- The `granularity` setter: stores the new value and clears the flag.  The
membership check against the `GRANULARITIES` table is vacuous here because the
granularity is already typed. -/
def SVSeries.setGranularity (s : SVSeries) (g : Granularity) : SVSeries :=
  { s with granularity := g, is_consistent := false }

/-- The `category` setter: stores the new value and clears the flag. -/
def SVSeries.setCategory (s : SVSeries) (c : Nat) : SVSeries :=
  { s with category := c, is_consistent := false }

/-- The `bounds` setter with its four validations (tick 0 is 2004-01-01 and
`now` is the current tick): on success stores the bounds and clears the flag. -/
def SVSeries.setBounds (now : Int) (s : SVSeries) (b : Int × Int) : Option SVSeries :=
  if b.1 < 0 then none
  else if now ≤ b.1 then none
  else if now ≤ b.2 then none
  else if b.2 ≤ b.1 then none
  else some { s with bounds := b, is_consistent := false }

/-! ## Interval planner (`SVSeries._build_intervals`) -/

/-- The interval length of one window, in ticks, per granularity branch of
`_build_intervals` (clamping against the `GRANULARITIES` table; lengths are
computed in days and converted to ticks, 24 per day for HOUR). -/
def SVSeries.intervalTicks (s : SVSeries) : Int :=
  match s.granularity with
  | .HOUR => 24 * max (min ((s.bounds.2 - s.bounds.1) / 24) 7) 3
  | .MONTH => max (s.bounds.2 - s.bounds.1) 1890
  | .DAY => max (min (s.bounds.2 - s.bounds.1) 269) 1

/-- The pointer loop of `_build_intervals`: while the pointer exceeds the lower
bound, emit `(pointer - L, pointer)` and move the pointer down by `L + offset`.
Written with fuel; one tick of fuel per emitted window is ample because the
pointer drops by at least 2 ticks per window. -/
def buildLoopF (lower L offset : Int) : ℕ → Int → List (Int × Int)
  | 0, _ => []
  | fuel + 1, p =>
    if lower < p then (p - L, p) :: buildLoopF lower L offset fuel (p - L - offset)
    else []

/-- `SVSeries._build_intervals`: run the pointer loop from the upper bound with
the granularity's window length and a one-tick offset. -/
def SVSeries.buildIntervals (s : SVSeries) : List (Int × Int) :=
  buildLoopF s.bounds.1 s.intervalTicks 1 (s.bounds.2 - s.bounds.1).toNat s.bounds.2

/-! ## Tournament engine and normalizer (`SVSeries.get_data`) -/

/-- Python slicing loop `for j in range(0, len(l), n): l[j:j+n]`, with fuel. -/
def chunksF (n : ℕ) : ℕ → List α → List (List α)
  | 0, _ => []
  | _ + 1, [] => []
  | fuel + 1, a :: l => ((a :: l).take n) :: chunksF n fuel ((a :: l).drop n)

/-- Split a list into consecutive slices of at most `n` elements. -/
def chunks (n : ℕ) (l : List α) : List (List α) :=
  chunksF n l.length l

/-- `response[i].max()`: the maximum value of a series (`none` for an empty
series, which compares unequal to 100 just as pandas' NaN does). -/
def seriesMax (s : Series) : Option ℚ :=
  (s.map Prod.snd).max?

/-- The scan inside `_get_max_request`: the first query whose series has
maximum 100, walking queries and responses in lockstep. -/
def firstMax100 : List Fragment → List Series → Option Fragment
  | q :: qs, r :: rs => if seriesMax r = some 100 then some q else firstMax100 qs rs
  | _, _ => none

/-- `SVSeries._get_max_request`: one comparison request; returns the first
query whose returned series has maximum 100, or raises (`algorithmError`)
when none does. -/
def getMaxRequest (conn : Conn) (category : Nat) (g : Granularity)
    (queries : List Fragment) : Except GsviErr Fragment :=
  match firstMax100 queries (conn { frags := queries, category := category, granularity := g }) with
  | some q => .ok q
  | none => .error .algorithmError

/-- The inner loop of phase 1 of `get_data`: process the groups of one layer
left to right; after each probe sleep `delay + r k` seconds where `r k` is the
k-th draw of `random.uniform(delay * -0.25, delay * 0.25)`.  Returns the
winners, the event trace, and the next draw index.  A failing probe aborts
after its call event, before any sleep. -/
def runGroups (conn : Conn) (category : Nat) (g : Granularity) (delay : ℚ) (r : ℕ → ℚ) :
    List (List Fragment) → ℕ → Except GsviErr (List Fragment) × List Event × ℕ
  | [], k => (.ok [], [], k)
  | c :: cs, k =>
    match getMaxRequest conn category g c with
    | .error e => (.error e, [.call { frags := c, category := category, granularity := g }], k)
    | .ok w =>
      match runGroups conn category g delay r cs (k + 1) with
      | (.error e, evs, kk) =>
        (.error e,
         .call { frags := c, category := category, granularity := g } :: .sleep (delay + r k) :: evs,
         kk)
      | (.ok ws, evs, kk) =>
        (.ok (w :: ws),
         .call { frags := c, category := category, granularity := g } :: .sleep (delay + r k) :: evs,
         kk)

/-- Phase 1 of `get_data` (`for i in range(0, depth)`): repeatedly partition the
current layer into groups of 5 and keep one winner per group, collecting the
layers produced. -/
def runLayers (conn : Conn) (category : Nat) (g : Granularity) (delay : ℚ) (r : ℕ → ℚ) :
    ℕ → List Fragment → ℕ → Except GsviErr (List (List Fragment)) × List Event × ℕ
  | 0, _, k => (.ok [], [], k)
  | d + 1, frags, k =>
    match runGroups conn category g delay r (chunks 5 frags) k with
    | (.error e, evs, kk) => (.error e, evs, kk)
    | (.ok layer, evs, kk) =>
      match runLayers conn category g delay r d layer kk with
      | (.error e, evs2, kk2) => (.error e, evs ++ evs2, kk2)
      | (.ok rest, evs2, kk2) => (.ok (layer :: rest), evs ++ evs2, kk2)

/-- Phase 2 of `get_data`: bundle each slice of 4 base fragments with the final
layer (`requests[-1]`), issue the comparison, and keep all but the last
returned series (`[:-1]`).  No sleeps here. -/
def normalizePass (conn : Conn) (category : Nat) (g : Granularity)
    (base winner : List Fragment) : List Series × List Event :=
  (((chunks 4 base).map fun c =>
      (conn { frags := c ++ winner, category := category, granularity := g }).dropLast).flatten,
   (chunks 4 base).map fun c =>
     .call { frags := c ++ winner, category := category, granularity := g })

/-- The fueled ceiling base-5 logarithm behind
`math.ceil(math.log(m, 5))` (exact arithmetic; proved equal to `Nat.clog 5`). -/
def clog5F : ℕ → ℕ → ℕ
  | 0, _ => 0
  | fuel + 1, m => if m ≤ 1 then 0 else clog5F fuel ((m + 4) / 5) + 1

/-- Ceiling base-5 logarithm with self-sufficient fuel. -/
def clog5 (m : ℕ) : ℕ :=
  clog5F m m

/-- `pd.Series.sort_index()`: order the points of a series chronologically. -/
def sortSeries (s : Series) : Series :=
  List.insertionSort (fun a b => a.1 ≤ b.1) s

/-- The postprocessing loop of `get_data`: cut the flat response list into
blocks of one per query (`len(intervals)` series each), concatenate and sort
each block, and name it after the key of the block's last base fragment
(`requests[0][i + len(intervals) - 1]['key']`). -/
def stitch (ic : ℕ) (base : List Fragment) (respFlat : List Series) : Data :=
  ((chunks ic base).zip (chunks ic respFlat)).map fun bc =>
    (((bc.1.getLast?).map Fragment.key).getD "", sortSeries bc.2.flatten)

/-- All points of a result, across its series. -/
def allPoints (d : Data) : List (Int × ℚ) :=
  (d.map Prod.snd).flatten

/-- `idxmax` over the stitched result: the first (hence smallest, the index
being sorted ascending) instant attaining the global maximum; `none` for an
empty result. -/
def maxDate (d : Data) : Option Int :=
  match ((allPoints d).map Prod.snd).max? with
  | some m => (((allPoints d).filter fun p => p.2 = m).map Prod.fst).min?
  | none => none

/-- `self.data[self.bounds[0]:]`: drop every point before the lower bound. -/
def truncateData (d : Data) (lower : Int) : Data :=
  d.map fun ks => (ks.1, ks.2.filter fun p => lower ≤ p.1)

/-- The tail of `get_data`: stitch the flat responses, attach the request
structure, decide truncation from the position of the maximum and the
`force_truncation` flag (warn instead of truncating when the maximum sits
below the lower bound and truncation is not forced), cache the result and set
the consistency flag. -/
def finish (s : SVSeries) (intervals : List (Int × Int)) (base : List Fragment)
    (layersAll : List (List Fragment)) (respFlat : List Series)
    (evs : List Event) (force : Bool) : SVSeries × Except GsviErr Data × List Event :=
  let pre := stitch intervals.length base respFlat
  match maxDate pre with
  | some m =>
    if force = false ∧ m < s.bounds.1 then
      ({ s with data := some pre, is_consistent := true, request_structure := some layersAll },
       .ok pre, evs ++ [.warn])
    else
      ({ s with data := some (truncateData pre s.bounds.1), is_consistent := true,
                request_structure := some layersAll },
       .ok (truncateData pre s.bounds.1), evs)
  | none =>
    ({ s with data := some (truncateData pre s.bounds.1), is_consistent := true,
              request_structure := some layersAll },
     .ok (truncateData pre s.bounds.1), evs)

/-- The base layer `requests[0]` of `get_data`: one fragment per query and
planned interval, query-major in the planner's emission order. -/
def SVSeries.baseLayer (s : SVSeries) : List Fragment :=
  s.queries.flatMap fun q =>
    s.buildIntervals.map fun iv => ({ key := q.key, geo := q.geo, range := iv } : Fragment)

/-- The non-cached path of `get_data`: plan intervals, flatten the queries into
the base layer, then either serve everything in one shortcut request (at most 5
fragments; the source passes no `category=` here, so the upstream sees the
default `CategoryCodes.NONE`, i.e. 0) or run the tournament and the
normalization pass. -/
def SVSeries.getDataCore (conn : Conn) (r : ℕ → ℚ) (s : SVSeries) (delay : ℚ) (force : Bool) :
    SVSeries × Except GsviErr Data × List Event :=
  if s.baseLayer.length ≤ 5 then
    finish s s.buildIntervals s.baseLayer [s.baseLayer]
      (conn { frags := s.baseLayer, category := 0, granularity := s.granularity })
      [.call { frags := s.baseLayer, category := 0, granularity := s.granularity }] force
  else
    match runLayers conn s.category s.granularity delay r
        (clog5 ((s.baseLayer.length + 4) / 5) + 1) s.baseLayer 0 with
    | (.error e, evs, _) => (s, .error e, evs)
    | (.ok layers, evs, _) =>
      let np := normalizePass conn s.category s.granularity s.baseLayer (layers.getLastD [])
      finish s s.buildIntervals s.baseLayer (s.baseLayer :: layers) np.1 (evs ++ np.2) force

/-- `SVSeries.get_data`: return the cached data when it is present and
consistent, otherwise recompute. -/
def SVSeries.getData (conn : Conn) (r : ℕ → ℚ) (s : SVSeries) (delay : ℚ) (force : Bool) :
    SVSeries × Except GsviErr Data × List Event :=
  match s.data with
  | some d => if s.is_consistent then (s, .ok d, []) else s.getDataCore conn r delay force
  | none => s.getDataCore conn r delay force

/-- Observer recomputing the stitched, pre-truncation result of a non-cached
`get_data` run (the value called `self.data` just before the truncation
branch); used to state the truncation policy. -/
def SVSeries.preStitched (conn : Conn) (r : ℕ → ℚ) (s : SVSeries) (delay : ℚ) : Data :=
  if s.baseLayer.length ≤ 5 then
    stitch s.buildIntervals.length s.baseLayer
      (conn { frags := s.baseLayer, category := 0, granularity := s.granularity })
  else
    match runLayers conn s.category s.granularity delay r
        (clog5 ((s.baseLayer.length + 4) / 5) + 1) s.baseLayer 0 with
    | (.error _, _, _) => []
    | (.ok layers, _, _) =>
      stitch s.buildIntervals.length s.baseLayer
        (normalizePass conn s.category s.granularity s.baseLayer (layers.getLastD [])).1

/-- Spec-side description of the tournament winner of one group, following the
spec's words: the first fragment whose returned series attains the value 100. -/
def specWinner (queries : List Fragment) (resp : List Series) : Option Fragment :=
  ((queries.zip resp).find? fun p => p.2.any fun q => q.2 = 100).map Prod.fst

/-! ## Concrete instances used by counterexamples and witnesses -/

/-- A DAY container whose span of 270 days is an exact multiple of
window length plus offset (269 + 1). -/
def c3x : SVSeries :=
  { queries := [{ key := "apple", geo := "" }], bounds := (0, 270),
    granularity := .DAY, category := 0, data := none, is_consistent := false,
    request_structure := none }

/-- A small DAY container with a 300-day span (two windows). -/
def c3w : SVSeries :=
  { queries := [{ key := "apple", geo := "" }], bounds := (0, 300),
    granularity := .DAY, category := 0, data := none, is_consistent := false,
    request_structure := none }

/-- A small MONTH container. -/
def c8w : SVSeries :=
  { queries := [{ key := "apple", geo := "" }], bounds := (0, 10),
    granularity := .MONTH, category := 0, data := none, is_consistent := false,
    request_structure := none }

/-- An oracle whose every returned series attains 100 at instant 0. -/
def allMaxConn : Conn := fun c => c.frags.map fun _ => [((0 : Int), (100 : ℚ))]

/-- Fragment number `i` of the C1 witness base layer. -/
def c1f (i : ℕ) : Fragment :=
  { key := "k", geo := "", range := ((i : Int), (i : Int) + 1) }

/-- A base layer of 6 fragments (forcing a 2-layer tournament). -/
def c1base : List Fragment := [c1f 0, c1f 1, c1f 2, c1f 3, c1f 4, c1f 5]

/-- The layers the tournament produces on `c1base` under `allMaxConn`. -/
def c1layers : List (List Fragment) := [[c1f 0, c1f 5], [c1f 0]]

/-- The zero stream of uniform draws. -/
def c1r : ℕ → ℚ := fun _ => 0

/-- The event trace of that tournament run (sleep amounts written exactly as
the code computes them). -/
def c1evs : List Event :=
  [.call { frags := [c1f 0, c1f 1, c1f 2, c1f 3, c1f 4], category := 0, granularity := .DAY },
   .sleep (10 + c1r 0),
   .call { frags := [c1f 5], category := 0, granularity := .DAY },
   .sleep (10 + c1r 1),
   .call { frags := [c1f 0, c1f 5], category := 0, granularity := .DAY },
   .sleep (10 + c1r 2)]

/-- First C2 witness fragment, whose series does not reach 100. -/
def c2qa : Fragment := { key := "a", geo := "", range := (0, 1) }

/-- Second C2 witness fragment, whose series reaches 100. -/
def c2qb : Fragment := { key := "b", geo := "", range := (0, 1) }

/-- An oracle for the C2 witness: the first series tops out at 50, the second
at 100. -/
def c2conn : Conn := fun _ => [[((0 : Int), (50 : ℚ))], [((0 : Int), (100 : ℚ))]]

/-- A query list with a lower-case geo code. -/
def c10qs : List Fragment := [{ key := "apple", geo := "us", range := (0, 1) }]

/-- A trivial network function. -/
def c10net : Net := fun _ _ _ => []

/-- An oracle answering every request with one single-point series at 100. -/
def c7conn : Conn := fun _ => [[((0 : Int), (100 : ℚ))]]

/-- A one-query DAY container with a non-default category (7 = FINANCE) whose
base layer fits the shortcut. -/
def c7s : SVSeries :=
  { queries := [{ key := "apple", geo := "" }], bounds := (0, 2),
    granularity := .DAY, category := 7, data := none, is_consistent := false,
    request_structure := none }

/-- Cached data for the idempotence witness. -/
def c5d : Data := [("apple", [((0 : Int), (100 : ℚ))])]

/-- A consistent container carrying `c5d`. -/
def c5s : SVSeries :=
  { queries := [{ key := "apple", geo := "" }], bounds := (0, 2),
    granularity := .DAY, category := 0, data := some c5d, is_consistent := true,
    request_structure := none }

/-- The single base fragment of `c7s`. -/
def c6frag : Fragment := { key := "apple", geo := "", range := (0, 2) }

/-- The stitched result of running `get_data` on `c7s` under `c7conn`. -/
def c6pre : Data := [("apple", [((0 : Int), (100 : ℚ))])]

/-- The container state after that run. -/
def c6s2 : SVSeries :=
  { queries := [{ key := "apple", geo := "" }], bounds := (0, 2),
    granularity := .DAY, category := 7, data := some c6pre, is_consistent := true,
    request_structure := some [[c6frag]] }

/-- The event trace of that run. -/
def c6evs : List Event :=
  [.call { frags := [c6frag], category := 0, granularity := .DAY }]

/-! # Theorems -/

/-! ## Interval planner lemmas -/

theorem buildLoopF_nil (lower L offset : Int) (fuel : ℕ) (p : Int) (h : ¬ lower < p) :
    buildLoopF lower L offset fuel p = [] := by
  cases fuel <;> simp [buildLoopF, h]

theorem buildLoopF_window_length (lower L offset : Int) :
    ∀ (fuel : ℕ) (p : Int), ∀ w ∈ buildLoopF lower L offset fuel p, w.2 - w.1 = L := by
  intro fuel
  induction fuel with
  | zero => intro p w hw; simp [buildLoopF] at hw
  | succ n ih =>
    intro p w hw
    by_cases h : lower < p
    · rw [buildLoopF, if_pos h] at hw
      rcases List.mem_cons.mp hw with hw | hw
      · simp [hw]
      · exact ih _ w hw
    · rw [buildLoopF, if_neg h] at hw
      exact absurd hw (List.not_mem_nil w)

theorem buildLoopF_upper_le (lower L offset : Int) (hLo : 0 ≤ L + offset) :
    ∀ (fuel : ℕ) (p : Int), ∀ w ∈ buildLoopF lower L offset fuel p, w.2 ≤ p := by
  intro fuel
  induction fuel with
  | zero => intro p w hw; simp [buildLoopF] at hw
  | succ n ih =>
    intro p w hw
    by_cases h : lower < p
    · rw [buildLoopF, if_pos h] at hw
      rcases List.mem_cons.mp hw with hw | hw
      · simp [hw]
      · have := ih _ w hw
        omega
    · rw [buildLoopF, if_neg h] at hw
      exact absurd hw (List.not_mem_nil w)

theorem buildLoopF_pairwise (lower L offset : Int) (hLo : 0 ≤ L + offset) (hoff : 0 < offset) :
    ∀ (fuel : ℕ) (p : Int),
      List.Pairwise (fun a b => b.2 < a.1) (buildLoopF lower L offset fuel p) := by
  intro fuel
  induction fuel with
  | zero => intro p; simp [buildLoopF]
  | succ n ih =>
    intro p
    by_cases h : lower < p
    · rw [buildLoopF, if_pos h]
      refine List.Pairwise.cons ?_ (ih _)
      intro w hw
      have := buildLoopF_upper_le lower L offset hLo n (p - L - offset) w hw
      simp only
      omega
    · rw [buildLoopF, if_neg h]
      exact List.Pairwise.nil

theorem buildLoopF_cover (lower L : Int) (hL : 1 ≤ L) :
    ∀ (fuel : ℕ) (p : Int), (p - lower).toNat ≤ fuel →
      ∀ t : Int, lower < t → t ≤ p →
        ∃ w ∈ buildLoopF lower L 1 fuel p, w.1 ≤ t ∧ t ≤ w.2 := by
  intro fuel
  induction fuel with
  | zero => intro p hf t ht1 ht2; omega
  | succ n ih =>
    intro p hf t ht1 ht2
    have h : lower < p := lt_of_lt_of_le ht1 ht2
    rw [buildLoopF, if_pos h]
    by_cases hcase : p - L ≤ t
    · exact ⟨(p - L, p), List.mem_cons_self _ _, hcase, ht2⟩
    · obtain ⟨w, hw, hw1, hw2⟩ := ih (p - L - 1) (by omega) t ht1 (by omega)
      exact ⟨w, List.mem_cons_of_mem _ hw, hw1, hw2⟩

theorem buildLoopF_head (lower L offset : Int) (fuel : ℕ) (p : Int)
    (hf : 0 < fuel) (h : lower < p) :
    ∃ tl, buildLoopF lower L offset fuel p = (p - L, p) :: tl := by
  cases fuel with
  | zero => omega
  | succ n => exact ⟨_, by rw [buildLoopF, if_pos h]⟩

theorem intervalTicks_pos (s : SVSeries) : 1 ≤ s.intervalTicks := by
  obtain ⟨qs, ⟨b1, b2⟩, g, c, dat, cons, rs⟩ := s
  cases g
  · have := le_max_right (min (b2 - b1) 269) (1 : ℤ)
    simp only [SVSeries.intervalTicks]
    omega
  · have := le_max_right (min ((b2 - b1) / 24) 7) (3 : ℤ)
    simp only [SVSeries.intervalTicks]
    omega
  · have := le_max_right (b2 - b1) (1890 : ℤ)
    simp only [SVSeries.intervalTicks]
    omega

theorem buildLoopF_single (lower L : Int) (fuel : ℕ) (p : Int) (h : lower < p)
    (hf : (p - lower).toNat ≤ fuel) (hL : p - lower ≤ L) :
    buildLoopF lower L 1 fuel p = [(p - L, p)] := by
  cases fuel with
  | zero => omega
  | succ n =>
    rw [buildLoopF, if_pos h, buildLoopF_nil]
    omega

theorem intervalTicks_month (s : SVSeries) (hg : s.granularity = Granularity.MONTH) :
    s.intervalTicks = max (s.bounds.2 - s.bounds.1) 1890 := by
  obtain ⟨qs, b, g, c, dat, cons, rs⟩ := s
  simp only at hg
  subst hg
  rfl

/-- C3: for valid bounds the planner starts at `bounds.upper`, emits windows of
length `L = intervalTicks` moving down by `L + 1` per step, and the emitted
windows are pairwise non-overlapping; but their union only covers the instants
strictly above `bounds.lower` (the lower bound itself can be missed, see the
counterexample), possibly extending below `bounds.lower`. -/
theorem c3_interval_planner (s : SVSeries) (h : s.bounds.1 < s.bounds.2) :
    (∃ tl, s.buildIntervals = (s.bounds.2 - s.intervalTicks, s.bounds.2) :: tl) ∧
    (∀ w ∈ s.buildIntervals, w.2 - w.1 = s.intervalTicks) ∧
    List.Pairwise (fun a b => b.2 < a.1) s.buildIntervals ∧
    (∀ t : Int, s.bounds.1 < t → t ≤ s.bounds.2 →
      ∃ w ∈ s.buildIntervals, w.1 ≤ t ∧ t ≤ w.2) := by
  have hL := intervalTicks_pos s
  refine ⟨?_, ?_, ?_, ?_⟩
  · exact buildLoopF_head _ _ _ _ _ (by omega) h
  · exact buildLoopF_window_length _ _ _ _ _
  · exact buildLoopF_pairwise _ _ _ (by omega) (by omega) _ _
  · exact buildLoopF_cover _ _ hL _ _ (le_refl _)

/-- C3 witness: concrete planner run with non-overlapping windows. -/
theorem c3_interval_planner_witness :
    List.Pairwise (fun a b => b.2 < a.1) c3w.buildIntervals :=
  (c3_interval_planner c3w (by decide)).2.2.1

/-- C3 counterexample: with DAY granularity and a 270-day span (an exact
multiple of window length 269 plus offset 1) the planner emits the single
window [1, 270]; the instant `bounds.lower = 0` lies in no emitted window, so
the union of the windows does not cover `[bounds.lower, bounds.upper]`. -/
theorem c3_counterexample :
    c3x.bounds.1 < c3x.bounds.2 ∧
    c3x.buildIntervals = [(1, 270)] ∧
    ∀ w ∈ c3x.buildIntervals, ¬(w.1 ≤ c3x.bounds.1 ∧ c3x.bounds.1 ≤ w.2) := by
  decide

/-- C8: with MONTH granularity and valid bounds the planner emits exactly one
window; its length is at least 1890 days and it covers `bounds`, extending
downward when the span is shorter than 1890 days. -/
theorem c8_month_single_window (s : SVSeries) (hg : s.granularity = Granularity.MONTH)
    (h : s.bounds.1 < s.bounds.2) :
    s.buildIntervals = [(s.bounds.2 - s.intervalTicks, s.bounds.2)] ∧
    1890 ≤ s.intervalTicks ∧
    s.bounds.2 - s.intervalTicks ≤ s.bounds.1 := by
  have hm := intervalTicks_month s hg
  have h1 : 1890 ≤ s.intervalTicks := by
    rw [hm]; exact le_max_right _ _
  have h2 : s.bounds.2 - s.bounds.1 ≤ s.intervalTicks := by
    rw [hm]; exact le_max_left _ _
  refine ⟨?_, h1, by omega⟩
  unfold SVSeries.buildIntervals
  exact buildLoopF_single _ _ _ _ h (le_refl _) h2

/-- C8 witness: concrete MONTH planner run. -/
theorem c8_month_single_window_witness :
    c8w.buildIntervals = [(c8w.bounds.2 - c8w.intervalTicks, c8w.bounds.2)] ∧
    1890 ≤ c8w.intervalTicks ∧
    c8w.bounds.2 - c8w.intervalTicks ≤ c8w.bounds.1 :=
  c8_month_single_window c8w rfl (by decide)

/-! ## Chunking and tournament size lemmas -/

theorem chunksF_mem_length (n : ℕ) :
    ∀ (fuel : ℕ) (l : List α), ∀ c ∈ chunksF n fuel l, c.length ≤ n := by
  intro fuel
  induction fuel with
  | zero => intro l c hc; simp [chunksF] at hc
  | succ m ih =>
    intro l c hc
    cases l with
    | nil => simp [chunksF] at hc
    | cons a t =>
      rw [chunksF] at hc
      rcases List.mem_cons.mp hc with hc | hc
      · subst hc
        simp [List.length_take]
      · exact ih _ c hc

theorem chunks_mem_length (n : ℕ) (l : List α) : ∀ c ∈ chunks n l, c.length ≤ n :=
  chunksF_mem_length n l.length l

theorem chunksF_five_length :
    ∀ (fuel : ℕ) (l : List α), l.length ≤ fuel →
      (chunksF 5 fuel l).length = (l.length + 4) / 5 := by
  intro fuel
  induction fuel with
  | zero =>
    intro l h
    cases l with
    | nil => simp [chunksF]
    | cons a t => simp at h
  | succ m ih =>
    intro l h
    cases l with
    | nil => simp [chunksF]
    | cons a t =>
      rw [chunksF]
      have hdrop : ((a :: t).drop 5).length ≤ m := by
        simp only [List.length_drop, List.length_cons]
        simp only [List.length_cons] at h
        omega
      rw [List.length_cons, ih _ hdrop]
      simp only [List.length_drop, List.length_cons]
      omega

theorem chunks_five_length (l : List α) : (chunks 5 l).length = (l.length + 4) / 5 :=
  chunksF_five_length l.length l (le_refl _)

theorem clog5F_iterate :
    ∀ (fuel m : ℕ), m ≤ fuel → 1 ≤ m →
      (fun x => (x + 4) / 5)^[clog5F fuel m] m = 1 := by
  intro fuel
  induction fuel with
  | zero => intro m h1 h2; omega
  | succ d ih =>
    intro m h1 h2
    rw [clog5F]
    by_cases hm : m ≤ 1
    · have h : m = 1 := by omega
      subst h
      simp
    · rw [if_neg hm, Function.iterate_succ_apply]
      exact ih ((m + 4) / 5) (by omega) (by omega)

theorem clog5_eq_clogF :
    ∀ (fuel m : ℕ), m ≤ fuel → clog5F fuel m = Nat.clog 5 m := by
  intro fuel
  induction fuel with
  | zero =>
    intro m h
    have hm : m = 0 := by omega
    subst hm
    rw [clog5F, Nat.clog_of_right_le_one (by omega)]
  | succ d ih =>
    intro m h
    rw [clog5F]
    by_cases hm : m ≤ 1
    · rw [if_pos hm, Nat.clog_of_right_le_one hm]
    · have hrec : Nat.clog 5 m = Nat.clog 5 ((m + 4) / 5) + 1 := by
        rw [Nat.clog_of_two_le (by norm_num) (show 2 ≤ m by omega)]
        norm_num
      rw [if_neg hm, ih ((m + 4) / 5) (by omega), hrec]

theorem clog5_eq (m : ℕ) : clog5 m = Nat.clog 5 m :=
  clog5_eq_clogF m m (le_refl m)

theorem runGroups_ok_length (conn : Conn) (category : Nat) (g : Granularity)
    (delay : ℚ) (r : ℕ → ℚ) :
    ∀ (cs : List (List Fragment)) (k kk : ℕ) (ws : List Fragment) (evs : List Event),
      runGroups conn category g delay r cs k = (.ok ws, evs, kk) →
      ws.length = cs.length := by
  intro cs
  induction cs with
  | nil =>
    intro k kk ws evs h
    rw [runGroups] at h
    simp only [Prod.mk.injEq, Except.ok.injEq] at h
    obtain ⟨h1, h2, h3⟩ := h
    subst h1
    rfl
  | cons c cs ih =>
    intro k kk ws evs h
    rw [runGroups] at h
    cases hg : getMaxRequest conn category g c with
    | error e =>
      rw [hg] at h
      simp at h
    | ok w =>
      rw [hg] at h
      rcases hr : runGroups conn category g delay r cs (k + 1) with ⟨res, evs2, kk2⟩
      rw [hr] at h
      cases res with
      | error e => simp at h
      | ok ws2 =>
        simp only [Prod.mk.injEq, Except.ok.injEq] at h
        obtain ⟨h1, h2, h3⟩ := h
        subst h1
        simp only [List.length_cons]
        exact congrArg Nat.succ (ih (k + 1) kk2 ws2 evs2 hr)

theorem runLayers_ok_last (conn : Conn) (category : Nat) (g : Granularity)
    (delay : ℚ) (r : ℕ → ℚ) :
    ∀ (d : ℕ) (frags : List Fragment) (k kk : ℕ)
      (layers : List (List Fragment)) (evs : List Event),
      runLayers conn category g delay r d frags k = (.ok layers, evs, kk) →
      layers.length = d ∧
      (layers.getLastD frags).length = (fun x => (x + 4) / 5)^[d] frags.length := by
  intro d
  induction d with
  | zero =>
    intro frags k kk layers evs h
    rw [runLayers] at h
    simp only [Prod.mk.injEq, Except.ok.injEq] at h
    obtain ⟨h1, h2, h3⟩ := h
    subst h1
    simp
  | succ d ih =>
    intro frags k kk layers evs h
    rw [runLayers] at h
    rcases hg : runGroups conn category g delay r (chunks 5 frags) k with ⟨res1, evs1, kk1⟩
    rw [hg] at h
    cases res1 with
    | error e => simp at h
    | ok layer =>
      dsimp only at h
      rcases hr : runLayers conn category g delay r d layer kk1 with ⟨res2, evs2, kk2⟩
      rw [hr] at h
      cases res2 with
      | error e => simp at h
      | ok rest =>
        simp only [Prod.mk.injEq, Except.ok.injEq] at h
        obtain ⟨h1, h2, h3⟩ := h
        subst h1
        have hlay : layer.length = (frags.length + 4) / 5 := by
          rw [runGroups_ok_length conn category g delay r _ _ _ _ _ hg, chunks_five_length]
        obtain ⟨ih1, ih2⟩ := ih layer kk1 kk2 rest evs2 hr
        refine ⟨by simp [ih1], ?_⟩
        rw [List.getLastD_cons, Function.iterate_succ_apply, ih2, hlay]

theorem runLayers_final_singleton (conn : Conn) (category : Nat) (g : Granularity)
    (delay : ℚ) (r : ℕ → ℚ) (base : List Fragment) (k kk : ℕ)
    (layers : List (List Fragment)) (evs : List Event)
    (hn : 5 < base.length)
    (hrun : runLayers conn category g delay r
        (clog5 ((base.length + 4) / 5) + 1) base k = (.ok layers, evs, kk)) :
    layers ≠ [] ∧ (layers.getLastD []).length = 1 := by
  obtain ⟨hlen, hlast⟩ := runLayers_ok_last conn category g delay r _ base k kk layers evs hrun
  have hne : layers ≠ [] := by
    intro hnil
    rw [hnil] at hlen
    simp at hlen
  refine ⟨hne, ?_⟩
  have h1 : (layers.getLastD base).length = 1 := by
    rw [hlast, Function.iterate_succ_apply]
    exact clog5F_iterate ((base.length + 4) / 5) ((base.length + 4) / 5) (le_refl _) (by omega)
  cases layers with
  | nil => exact absurd rfl hne
  | cons a t =>
    rw [List.getLastD_cons] at h1 ⊢
    exact h1

/-- C1: for a base layer of more than 5 fragments, a successful tournament of
depth `ceil(log_5(ceil(n/5))) + 1` layers, each layer keeping one winner per
consecutive group of at most 5, ends with a final layer of exactly one
fragment. -/
theorem c1_tournament_converges (conn : Conn) (category : Nat) (g : Granularity)
    (delay : ℚ) (r : ℕ → ℚ) (base : List Fragment) (k kk : ℕ)
    (layers : List (List Fragment)) (evs : List Event)
    (hn : 5 < base.length)
    (hrun : runLayers conn category g delay r
        (Nat.clog 5 ((base.length + 4) / 5) + 1) base k = (.ok layers, evs, kk)) :
    layers ≠ [] ∧ (layers.getLastD []).length = 1 := by
  rw [← clog5_eq] at hrun
  exact runLayers_final_singleton conn category g delay r base k kk layers evs hn hrun

/-- C1 witness: a 6-fragment base layer under an oracle whose series all reach
100; the tournament of depth 2 ends with the single fragment `c1f 0`. -/
theorem c1_tournament_converges_witness :
    c1layers ≠ [] ∧ (c1layers.getLastD []).length = 1 := by
  refine c1_tournament_converges allMaxConn 0 Granularity.DAY 10 c1r
    c1base 0 3 c1layers c1evs (by decide) ?_
  have h2 : (c1base.length + 4) / 5 = 2 := by decide
  rw [h2, ← clog5_eq]
  rfl

/-! ## Tournament winner selection (C2) -/

theorem seriesMax_eq_100_iff (se : Series) (hle : ∀ p ∈ se, p.2 ≤ (100 : ℚ)) :
    seriesMax se = some 100 ↔ (se.any fun q => q.2 = 100) = true := by
  haveI : Std.Antisymm ((· : ℚ) ≤ ·) := ⟨fun h1 h2 => le_antisymm h1 h2⟩
  rw [seriesMax, List.max?_eq_some_iff (fun a => le_refl a) (fun a b => max_choice a b)
    (fun a b c => max_le_iff)]
  constructor
  · rintro ⟨hmem, -⟩
    rw [List.any_eq_true]
    obtain ⟨p, hp, hp2⟩ := List.mem_map.mp hmem
    exact ⟨p, hp, by simp [hp2]⟩
  · intro h
    rw [List.any_eq_true] at h
    obtain ⟨p, hp, hp2⟩ := h
    have hp2m : p.2 = 100 := by simpa using hp2
    constructor
    · exact List.mem_map.mpr ⟨p, hp, hp2m⟩
    · intro b hb
      obtain ⟨q, hq, hq2⟩ := List.mem_map.mp hb
      rw [← hq2]
      exact hle q hq

/-- C2: provided the upstream answers with one series per fragment and values
at most 100, `_get_max_request` returns exactly the first fragment whose
series attains the value 100, and raises (`algorithmError`) when no series
does. -/
theorem c2_first_attaining_100_wins (conn : Conn) (category : Nat) (g : Granularity)
    (queries : List Fragment)
    (hlen : (conn { frags := queries, category := category, granularity := g }).length
      = queries.length)
    (hle : ∀ se ∈ conn { frags := queries, category := category, granularity := g },
      ∀ p ∈ se, p.2 ≤ (100 : ℚ)) :
    getMaxRequest conn category g queries =
      match specWinner queries
          (conn { frags := queries, category := category, granularity := g }) with
      | some q => .ok q
      | none => .error .algorithmError := by
  have key : ∀ (qs : List Fragment) (rs : List Series),
      rs.length = qs.length → (∀ se ∈ rs, ∀ p ∈ se, p.2 ≤ (100 : ℚ)) →
      firstMax100 qs rs = specWinner qs rs := by
    intro qs
    induction qs with
    | nil =>
      intro rs h1 h2
      have h0 : rs = [] := List.length_eq_zero.mp (by simpa using h1)
      subst h0
      rfl
    | cons q qs ih =>
      intro rs h1 h2
      cases rs with
      | nil => simp at h1
      | cons se rs2 =>
        rw [firstMax100]
        by_cases hm : seriesMax se = some 100
        · rw [if_pos hm]
          have hany : (se.any fun p => p.2 = 100) = true :=
            (seriesMax_eq_100_iff se (h2 se (List.mem_cons_self se rs2))).mp hm
          simp only [specWinner, List.zip_cons_cons, List.find?_cons]
          rw [hany]
          rfl
        · rw [if_neg hm]
          have hany : (se.any fun p => p.2 = 100) = false := by
            rw [← Bool.not_eq_true]
            intro hcon
            exact hm ((seriesMax_eq_100_iff se (h2 se (List.mem_cons_self se rs2))).mpr hcon)
          have htail := ih rs2 (by simpa using h1)
            (fun x hx => h2 x (List.mem_cons_of_mem _ hx))
          rw [htail]
          simp only [specWinner, List.zip_cons_cons, List.find?_cons]
          rw [hany]
  rw [getMaxRequest, key queries _ hlen hle]

/-- C2 witness: a concrete group where the first series tops out at 50 and the
second reaches 100; the second fragment wins. -/
theorem c2_first_attaining_100_wins_witness :
    getMaxRequest c2conn 0 Granularity.DAY [c2qa, c2qb] =
      match specWinner [c2qa, c2qb]
          (c2conn { frags := [c2qa, c2qb], category := 0, granularity := Granularity.DAY }) with
      | some q => .ok q
      | none => .error .algorithmError :=
  c2_first_attaining_100_wins c2conn 0 Granularity.DAY [c2qa, c2qb] (by decide) (by decide)

/-! ## Explore payload construction (C10) -/

/-- C10: every comparison item sent upstream carries the query's geo
upper-cased and its keyword unchanged; and below the 5-query cap
`get_timeseries` hands exactly that payload to the network. -/
theorem c10_geo_uppercased (queries : List Fragment) (i : ℕ) (hi : i < queries.length) :
    (exploreItems queries)[i]? =
      some { keyword := (queries.get ⟨i, hi⟩).key,
             timeRange := (queries.get ⟨i, hi⟩).range,
             geo := strUpper ((queries.get ⟨i, hi⟩).geo) } ∧
    ∀ (net : Net) (category : Nat) (g : Granularity), queries.length ≤ 5 →
      get_timeseries net queries category g = .ok (net (exploreItems queries) category g) := by
  constructor
  · rw [exploreItems, List.getElem?_map, List.getElem?_eq_getElem hi]
    rfl
  · intro net category g h5
    rw [get_timeseries, if_neg (by omega)]

/-- C10 witness: a lower-case geo code is sent upper-cased, the keyword
verbatim. -/
theorem c10_geo_uppercased_witness :
    (exploreItems c10qs)[0]? =
      some { keyword := "apple", timeRange := (0, 1), geo := "US" } ∧
    get_timeseries c10net c10qs 0 Granularity.DAY =
      .ok (c10net (exploreItems c10qs) 0 Granularity.DAY) := by
  have h := c10_geo_uppercased c10qs 0 (by decide)
  exact ⟨by rw [h.1]; decide, h.2 c10net 0 Granularity.DAY (by decide)⟩

/-! ## Event trace lemmas -/

theorem runGroups_events (conn : Conn) (category : Nat) (g : Granularity)
    (delay : ℚ) (r : ℕ → ℚ) :
    ∀ (cs : List (List Fragment)) (k : ℕ) (res : Except GsviErr (List Fragment))
      (evs : List Event) (kk : ℕ),
      runGroups conn category g delay r cs k = (res, evs, kk) →
      ∀ e ∈ evs,
        (∃ c ∈ cs, e = .call { frags := c, category := category, granularity := g }) ∨
        (∃ i, e = .sleep (delay + r i)) := by
  intro cs
  induction cs with
  | nil =>
    intro k res evs kk h e he
    rw [runGroups] at h
    simp only [Prod.mk.injEq] at h
    rw [← h.2.1] at he
    simp at he
  | cons c cs ih =>
    intro k res evs kk h e he
    rw [runGroups] at h
    cases hg : getMaxRequest conn category g c with
    | error err =>
      rw [hg] at h
      simp only [Prod.mk.injEq] at h
      rw [← h.2.1] at he
      simp only [List.mem_singleton] at he
      exact Or.inl ⟨c, List.mem_cons_self c cs, he⟩
    | ok w =>
      rw [hg] at h
      rcases hr : runGroups conn category g delay r cs (k + 1) with ⟨res2, evs2, kk2⟩
      rw [hr] at h
      have hgo : ∀ e ∈ evs2,
          (∃ c2 ∈ c :: cs, e = Event.call { frags := c2, category := category, granularity := g }) ∨
          (∃ i, e = Event.sleep (delay + r i)) := by
        intro e2 he2
        rcases ih (k + 1) _ _ _ hr e2 he2 with ⟨c2, hc2, he3⟩ | hi
        · exact Or.inl ⟨c2, List.mem_cons_of_mem _ hc2, he3⟩
        · exact Or.inr hi
      cases res2 with
      | error err =>
        simp only [Prod.mk.injEq] at h
        rw [← h.2.1] at he
        rcases List.mem_cons.mp he with he | he
        · exact Or.inl ⟨c, List.mem_cons_self c cs, he⟩
        rcases List.mem_cons.mp he with he | he
        · exact Or.inr ⟨k, he⟩
        · exact hgo e he
      | ok ws =>
        simp only [Prod.mk.injEq] at h
        rw [← h.2.1] at he
        rcases List.mem_cons.mp he with he | he
        · exact Or.inl ⟨c, List.mem_cons_self c cs, he⟩
        rcases List.mem_cons.mp he with he | he
        · exact Or.inr ⟨k, he⟩
        · exact hgo e he

theorem runLayers_events (conn : Conn) (category : Nat) (g : Granularity)
    (delay : ℚ) (r : ℕ → ℚ) :
    ∀ (d : ℕ) (frags : List Fragment) (k : ℕ)
      (res : Except GsviErr (List (List Fragment))) (evs : List Event) (kk : ℕ),
      runLayers conn category g delay r d frags k = (res, evs, kk) →
      ∀ e ∈ evs,
        (∃ c : List Fragment, c.length ≤ 5 ∧
          e = .call { frags := c, category := category, granularity := g }) ∨
        (∃ i, e = .sleep (delay + r i)) := by
  intro d
  induction d with
  | zero =>
    intro frags k res evs kk h e he
    rw [runLayers] at h
    simp only [Prod.mk.injEq] at h
    rw [← h.2.1] at he
    simp at he
  | succ d ih =>
    intro frags k res evs kk h e he
    rw [runLayers] at h
    rcases hg : runGroups conn category g delay r (chunks 5 frags) k with ⟨res1, evs1, kk1⟩
    rw [hg] at h
    have hgr : ∀ e ∈ evs1,
        (∃ c : List Fragment, c.length ≤ 5 ∧
          e = Event.call { frags := c, category := category, granularity := g }) ∨
        (∃ i, e = Event.sleep (delay + r i)) := by
      intro e2 he2
      rcases runGroups_events conn category g delay r _ _ _ _ _ hg e2 he2 with
        ⟨c2, hc2, he3⟩ | hi
      · exact Or.inl ⟨c2, chunks_mem_length 5 frags c2 hc2, he3⟩
      · exact Or.inr hi
    cases res1 with
    | error err =>
      simp only [Prod.mk.injEq] at h
      rw [← h.2.1] at he
      exact hgr e he
    | ok layer =>
      dsimp only at h
      rcases hr : runLayers conn category g delay r d layer kk1 with ⟨res2, evs2, kk2⟩
      rw [hr] at h
      cases res2 with
      | error err =>
        simp only [Prod.mk.injEq] at h
        rw [← h.2.1] at he
        rcases List.mem_append.mp he with he | he
        · exact hgr e he
        · exact ih layer kk1 _ _ _ hr e he
      | ok rest =>
        simp only [Prod.mk.injEq] at h
        rw [← h.2.1] at he
        rcases List.mem_append.mp he with he | he
        · exact hgr e he
        · exact ih layer kk1 _ _ _ hr e he

theorem normalizePass_events (conn : Conn) (category : Nat) (g : Granularity)
    (base winner : List Fragment) :
    ∀ e ∈ (normalizePass conn category g base winner).2,
      ∃ c ∈ chunks 4 base,
        e = .call { frags := c ++ winner, category := category, granularity := g } := by
  intro e he
  simp only [normalizePass, List.mem_map] at he
  obtain ⟨c, hc, he⟩ := he
  exact ⟨c, hc, he.symm⟩

theorem runGroups_head_call (conn : Conn) (category : Nat) (g : Granularity)
    (delay : ℚ) (r : ℕ → ℚ) (c : List Fragment) (cs : List (List Fragment)) (k : ℕ)
    (res : Except GsviErr (List Fragment)) (evs : List Event) (kk : ℕ)
    (h : runGroups conn category g delay r (c :: cs) k = (res, evs, kk)) :
    ∃ tl, evs = Event.call { frags := c, category := category, granularity := g } :: tl := by
  rw [runGroups] at h
  cases hg : getMaxRequest conn category g c with
  | error err =>
    rw [hg] at h
    simp only [Prod.mk.injEq] at h
    exact ⟨[], h.2.1.symm⟩
  | ok w =>
    rw [hg] at h
    rcases hr : runGroups conn category g delay r cs (k + 1) with ⟨res2, evs2, kk2⟩
    rw [hr] at h
    cases res2 with
    | error err =>
      simp only [Prod.mk.injEq] at h
      exact ⟨_, h.2.1.symm⟩
    | ok ws =>
      simp only [Prod.mk.injEq] at h
      exact ⟨_, h.2.1.symm⟩

theorem runLayers_head_call (conn : Conn) (category : Nat) (g : Granularity)
    (delay : ℚ) (r : ℕ → ℚ) (d : ℕ) (a : Fragment) (t : List Fragment) (k : ℕ)
    (res : Except GsviErr (List (List Fragment))) (evs : List Event) (kk : ℕ)
    (h : runLayers conn category g delay r (d + 1) (a :: t) k = (res, evs, kk)) :
    ∃ c tl, evs = Event.call c :: tl := by
  rw [runLayers] at h
  rcases hg : runGroups conn category g delay r (chunks 5 (a :: t)) k with ⟨res1, evs1, kk1⟩
  have hch : chunks 5 (a :: t)
      = ((a :: t).take 5) :: chunksF 5 t.length ((a :: t).drop 5) := rfl
  rw [hch] at hg
  obtain ⟨tl0, hevs1⟩ := runGroups_head_call conn category g delay r _ _ _ _ _ _ hg
  rw [hch, hg] at h
  cases res1 with
  | error err =>
    simp only [Prod.mk.injEq] at h
    exact ⟨_, tl0, by rw [← h.2.1, hevs1]⟩
  | ok layer =>
    dsimp only at h
    rcases hr : runLayers conn category g delay r d layer kk1 with ⟨res2, evs2, kk2⟩
    rw [hr] at h
    cases res2 with
    | error err =>
      simp only [Prod.mk.injEq] at h
      exact ⟨_, tl0 ++ evs2, by rw [← h.2.1, hevs1]; rfl⟩
    | ok rest =>
      simp only [Prod.mk.injEq] at h
      exact ⟨_, tl0 ++ evs2, by rw [← h.2.1, hevs1]; rfl⟩

/-! ## Finish and getData plumbing -/

theorem finish_cases (s : SVSeries) (intervals : List (Int × Int)) (base : List Fragment)
    (layersAll : List (List Fragment)) (respFlat : List Series)
    (evs : List Event) (force : Bool) :
    ∃ dat wtl,
      finish s intervals base layersAll respFlat evs force =
        ({ s with data := some dat, is_consistent := true,
                  request_structure := some layersAll }, .ok dat, evs ++ wtl) ∧
      (wtl = [] ∨ wtl = [.warn]) := by
  cases hmd : maxDate (stitch intervals.length base respFlat) with
  | none =>
    exact ⟨truncateData (stitch intervals.length base respFlat) s.bounds.1, [],
      by simp only [finish, hmd]; simp, Or.inl rfl⟩
  | some m =>
    by_cases hc : force = false ∧ m < s.bounds.1
    · exact ⟨stitch intervals.length base respFlat, [.warn],
        by simp only [finish, hmd]; rw [if_pos hc], Or.inr rfl⟩
    · exact ⟨truncateData (stitch intervals.length base respFlat) s.bounds.1, [],
        by simp only [finish, hmd]; rw [if_neg hc]; simp, Or.inl rfl⟩

theorem finish_truncation (s : SVSeries) (intervals : List (Int × Int))
    (base : List Fragment) (layersAll : List (List Fragment)) (respFlat : List Series)
    (evs : List Event) (force : Bool) (m : Int)
    (hmd : maxDate (stitch intervals.length base respFlat) = some m) :
    ((force = true ∨ s.bounds.1 ≤ m) →
      (finish s intervals base layersAll respFlat evs force).2.1
        = .ok (truncateData (stitch intervals.length base respFlat) s.bounds.1) ∧
      (finish s intervals base layersAll respFlat evs force).2.2 = evs) ∧
    (force = false → m < s.bounds.1 →
      (finish s intervals base layersAll respFlat evs force).2.1
        = .ok (stitch intervals.length base respFlat) ∧
      (finish s intervals base layersAll respFlat evs force).2.2 = evs ++ [.warn]) := by
  by_cases hc : force = false ∧ m < s.bounds.1
  · constructor
    · intro hcase
      exfalso
      rcases hcase with hf | hm2
      · rw [hf] at hc
        simp at hc
      · omega
    · intro _ _
      constructor <;> simp only [finish, hmd] <;> rw [if_pos hc]
  · constructor
    · intro _
      constructor <;> simp only [finish, hmd] <;> rw [if_neg hc]
    · intro hf hm2
      exact absurd ⟨hf, hm2⟩ hc

theorem getData_eq_core (conn : Conn) (r : ℕ → ℚ) (s : SVSeries) (delay : ℚ) (force : Bool)
    (h : s.is_consistent = false) :
    s.getData conn r delay force = s.getDataCore conn r delay force := by
  rw [SVSeries.getData]
  cases hd : s.data with
  | none => rfl
  | some d =>
    dsimp only
    rw [h]
    simp

theorem getData_cached (conn : Conn) (r : ℕ → ℚ) (s : SVSeries) (delay : ℚ) (force : Bool)
    (d : Data) (hcons : s.is_consistent = true) (hd : s.data = some d) :
    s.getData conn r delay force = (s, .ok d, []) := by
  rw [SVSeries.getData, hd]
  dsimp only
  rw [hcons]
  simp

theorem getData_events_sub (conn : Conn) (r : ℕ → ℚ) (s : SVSeries)
    (delay : ℚ) (force : Bool) :
    (s.getData conn r delay force).2.2 = [] ∨
    (s.getData conn r delay force).2.2 = (s.getDataCore conn r delay force).2.2 := by
  rw [SVSeries.getData]
  cases hd : s.data with
  | none => exact Or.inr rfl
  | some d =>
    dsimp only
    cases hcons : s.is_consistent with
    | true => exact Or.inl (by simp)
    | false => exact Or.inr (by simp)

theorem getDataCore_events (conn : Conn) (r : ℕ → ℚ) (s : SVSeries)
    (delay : ℚ) (force : Bool) :
    ∀ e ∈ (s.getDataCore conn r delay force).2.2,
      (∃ c : CallRec, c.frags.length ≤ 5 ∧ e = .call c) ∨
      (∃ i, e = .sleep (delay + r i)) ∨ e = .warn := by
  intro e he
  rw [SVSeries.getDataCore] at he
  by_cases h5 : s.baseLayer.length ≤ 5
  · rw [if_pos h5] at he
    obtain ⟨dat, wtl, hfin, hw⟩ := finish_cases s s.buildIntervals s.baseLayer [s.baseLayer]
      (conn { frags := s.baseLayer, category := 0, granularity := s.granularity })
      [.call { frags := s.baseLayer, category := 0, granularity := s.granularity }] force
    rw [hfin] at he
    dsimp only at he
    rcases List.mem_append.mp he with he | he
    · simp only [List.mem_singleton] at he
      exact Or.inl ⟨_, h5, he⟩
    · rcases hw with hw | hw
      · rw [hw] at he
        simp at he
      · rw [hw] at he
        simp only [List.mem_singleton] at he
        exact Or.inr (Or.inr he)
  · rw [if_neg h5] at he
    rcases hg : runLayers conn s.category s.granularity delay r
        (clog5 ((s.baseLayer.length + 4) / 5) + 1) s.baseLayer 0 with ⟨res1, evs1, kk1⟩
    rw [hg] at he
    cases res1 with
    | error err =>
      dsimp only at he
      rcases runLayers_events conn s.category s.granularity delay r _ _ _ _ _ _ hg e he with
        ⟨c, hc5, hce⟩ | hi
      · exact Or.inl ⟨_, hc5, hce⟩
      · exact Or.inr (Or.inl hi)
    | ok layers =>
      dsimp only at he
      obtain ⟨hne, hwin⟩ := runLayers_final_singleton conn s.category s.granularity delay r
        s.baseLayer 0 kk1 layers evs1 (by omega) hg
      obtain ⟨dat, wtl, hfin, hw⟩ := finish_cases s s.buildIntervals s.baseLayer
        (s.baseLayer :: layers)
        (normalizePass conn s.category s.granularity s.baseLayer (layers.getLastD [])).1
        (evs1 ++ (normalizePass conn s.category s.granularity s.baseLayer
          (layers.getLastD [])).2) force
      rw [hfin] at he
      dsimp only at he
      rcases List.mem_append.mp he with he | he
      · rcases List.mem_append.mp he with he | he
        · rcases runLayers_events conn s.category s.granularity delay r _ _ _ _ _ _ hg e he with
            ⟨c, hc5, hce⟩ | hi
          · exact Or.inl ⟨_, hc5, hce⟩
          · exact Or.inr (Or.inl hi)
        · obtain ⟨c, hc, hce⟩ := normalizePass_events conn s.category s.granularity
            s.baseLayer (layers.getLastD []) e he
          refine Or.inl ⟨_, ?_, hce⟩
          have hc4 : c.length ≤ 4 := chunks_mem_length 4 s.baseLayer c hc
          simp only [List.length_append]
          omega
      · rcases hw with hw | hw
        · rw [hw] at he
          simp at he
        · rw [hw] at he
          simp only [List.mem_singleton] at he
          exact Or.inr (Or.inr he)

theorem getDataCore_ok (conn : Conn) (r : ℕ → ℚ) (s : SVSeries) (delay : ℚ) (force : Bool)
    (s2 : SVSeries) (d : Data) (evs : List Event)
    (h : s.getDataCore conn r delay force = (s2, .ok d, evs)) :
    s2.is_consistent = true ∧ s2.data = some d := by
  rw [SVSeries.getDataCore] at h
  by_cases h5 : s.baseLayer.length ≤ 5
  · rw [if_pos h5] at h
    obtain ⟨dat, wtl, hfin, hw⟩ := finish_cases s s.buildIntervals s.baseLayer [s.baseLayer]
      (conn { frags := s.baseLayer, category := 0, granularity := s.granularity })
      [.call { frags := s.baseLayer, category := 0, granularity := s.granularity }] force
    rw [hfin] at h
    simp only [Prod.mk.injEq, Except.ok.injEq] at h
    obtain ⟨h1, h2, h3⟩ := h
    rw [← h1, ← h2]
    exact ⟨rfl, rfl⟩
  · rw [if_neg h5] at h
    rcases hg : runLayers conn s.category s.granularity delay r
        (clog5 ((s.baseLayer.length + 4) / 5) + 1) s.baseLayer 0 with ⟨res1, evs1, kk1⟩
    rw [hg] at h
    cases res1 with
    | error err => simp at h
    | ok layers =>
      dsimp only at h
      obtain ⟨dat, wtl, hfin, hw⟩ := finish_cases s s.buildIntervals s.baseLayer
        (s.baseLayer :: layers)
        (normalizePass conn s.category s.granularity s.baseLayer (layers.getLastD [])).1
        (evs1 ++ (normalizePass conn s.category s.granularity s.baseLayer
          (layers.getLastD [])).2) force
      rw [hfin] at h
      simp only [Prod.mk.injEq, Except.ok.injEq] at h
      obtain ⟨h1, h2, h3⟩ := h
      rw [← h1, ← h2]
      exact ⟨rfl, rfl⟩

theorem getDataCore_has_call (conn : Conn) (r : ℕ → ℚ) (s : SVSeries)
    (delay : ℚ) (force : Bool) :
    ∃ c : CallRec, Event.call c ∈ (s.getDataCore conn r delay force).2.2 := by
  rw [SVSeries.getDataCore]
  by_cases h5 : s.baseLayer.length ≤ 5
  · rw [if_pos h5]
    obtain ⟨dat, wtl, hfin, hw⟩ := finish_cases s s.buildIntervals s.baseLayer [s.baseLayer]
      (conn { frags := s.baseLayer, category := 0, granularity := s.granularity })
      [.call { frags := s.baseLayer, category := 0, granularity := s.granularity }] force
    rw [hfin]
    refine ⟨{ frags := s.baseLayer, category := 0, granularity := s.granularity }, ?_⟩
    dsimp only
    exact List.mem_append_left _ (List.mem_cons_self _ _)
  · rw [if_neg h5]
    obtain ⟨a, t, hbase⟩ : ∃ a t, s.baseLayer = a :: t := by
      cases hb : s.baseLayer with
      | nil => rw [hb] at h5; simp at h5
      | cons a t => exact ⟨a, t, rfl⟩
    rcases hg : runLayers conn s.category s.granularity delay r
        (clog5 ((s.baseLayer.length + 4) / 5) + 1) s.baseLayer 0 with ⟨res1, evs1, kk1⟩
    obtain ⟨c0, tl0, hevs1⟩ : ∃ c0 tl0, evs1 = Event.call c0 :: tl0 := by
      rw [hbase] at hg
      exact runLayers_head_call conn s.category s.granularity delay r _ a t 0 _ _ _ hg
    cases res1 with
    | error err =>
      exact ⟨c0, by dsimp only; rw [hevs1]; exact List.mem_cons_self _ _⟩
    | ok layers =>
      dsimp only
      obtain ⟨dat, wtl, hfin, hw⟩ := finish_cases s s.buildIntervals s.baseLayer
        (s.baseLayer :: layers)
        (normalizePass conn s.category s.granularity s.baseLayer (layers.getLastD [])).1
        (evs1 ++ (normalizePass conn s.category s.granularity s.baseLayer
          (layers.getLastD [])).2) force
      rw [hfin]
      refine ⟨c0, ?_⟩
      dsimp only
      refine List.mem_append_left _ (List.mem_append_left _ ?_)
      rw [hevs1]
      exact List.mem_cons_self _ _

/-! ## Claim C4 -/

/-- C4: every upstream comparison call issued by `get_data` carries at most 5
fragments (tournament groups of 5, normalization bundles of 4 plus the single
winner, shortcut of at most 5); and a query list longer than 5 handed directly
to `get_timeseries` fails with a `ValidationError` for every possible network,
hence before any network interaction. -/
theorem c4_group_size_capped (conn : Conn) (r : ℕ → ℚ) (s : SVSeries)
    (delay : ℚ) (force : Bool) :
    (∀ c : CallRec, Event.call c ∈ (s.getData conn r delay force).2.2 →
      c.frags.length ≤ 5) ∧
    (∀ (net : Net) (queries : List Fragment) (category : Nat) (g : Granularity),
      5 < queries.length → get_timeseries net queries category g = .error .validationError) := by
  constructor
  · intro c hc
    rcases getData_events_sub conn r s delay force with hemp | heq
    · rw [hemp] at hc
      simp at hc
    · rw [heq] at hc
      rcases getDataCore_events conn r s delay force _ hc with ⟨c2, hc5, hce⟩ | ⟨i, hce⟩ | hce
      · injection hce with hcc
        rw [hcc]
        exact hc5
      · simp at hce
      · simp at hce
  · intro net queries category g h6
    rw [get_timeseries, if_pos h6]

/-- C4 witness: the single shortcut call of a concrete run carries 1 fragment,
and a direct 6-query call fails validation. -/
theorem c4_group_size_capped_witness :
    ({ frags := [c6frag], category := 0, granularity := Granularity.DAY } : CallRec).frags.length
      ≤ 5 ∧
    get_timeseries c10net c1base 0 Granularity.DAY = .error .validationError :=
  ⟨(c4_group_size_capped c7conn c1r c7s 10 false).1
      { frags := [c6frag], category := 0, granularity := Granularity.DAY }
      (by
        have htr : (c7s.getData c7conn c1r 10 false).2.2
            = [Event.call { frags := [c6frag], category := 0, granularity := Granularity.DAY }] :=
          rfl
        rw [htr]
        exact List.mem_cons_self _ _),
   (c4_group_size_capped c7conn c1r c7s 10 false).2 c10net c1base 0 Granularity.DAY (by decide)⟩

/-! ## Claim C5 -/

/-- C5: a successful `get_data` leaves the container consistent with its data
cached; when consistent, `get_data` returns the cached value with an empty
event trace (no upstream requests); each input setter (queries, category,
granularity, bounds) clears the flag; and an inconsistent container's
`get_data` issues at least one upstream call. -/
theorem c5_cache_consistency :
    (∀ (conn : Conn) (r : ℕ → ℚ) (s : SVSeries) (delay : ℚ) (force : Bool)
       (s2 : SVSeries) (d : Data) (evs : List Event),
       SVSeries.getData conn r s delay force = (s2, .ok d, evs) →
       s2.is_consistent = true ∧ s2.data = some d) ∧
    (∀ (conn : Conn) (r : ℕ → ℚ) (s : SVSeries) (delay : ℚ) (force : Bool) (d : Data),
       s.is_consistent = true → s.data = some d →
       SVSeries.getData conn r s delay force = (s, .ok d, [])) ∧
    (∀ (s : SVSeries) (q : List Query), (s.setQueries q).is_consistent = false) ∧
    (∀ (s : SVSeries) (c : Nat), (s.setCategory c).is_consistent = false) ∧
    (∀ (s : SVSeries) (g : Granularity), (s.setGranularity g).is_consistent = false) ∧
    (∀ (now : Int) (s : SVSeries) (b : Int × Int) (s2 : SVSeries),
       s.setBounds now b = some s2 → s2.is_consistent = false) ∧
    (∀ (conn : Conn) (r : ℕ → ℚ) (s : SVSeries) (delay : ℚ) (force : Bool),
       s.is_consistent = false →
       ∃ c : CallRec, Event.call c ∈ (SVSeries.getData conn r s delay force).2.2) := by
  refine ⟨?_, ?_, ?_, ?_, ?_, ?_, ?_⟩
  · intro conn r s delay force s2 d evs h
    by_cases hcons : s.is_consistent
    · cases hd : s.data with
      | some d0 =>
        rw [getData_cached conn r s delay force d0 (by simpa using hcons) hd] at h
        simp only [Prod.mk.injEq, Except.ok.injEq] at h
        obtain ⟨h1, h2, h3⟩ := h
        rw [← h1, ← h2]
        exact ⟨by simpa using hcons, hd⟩
      | none =>
        have hcore : s.getData conn r delay force = s.getDataCore conn r delay force := by
          rw [SVSeries.getData, hd]
        rw [hcore] at h
        exact getDataCore_ok conn r s delay force s2 d evs h
    · rw [getData_eq_core conn r s delay force (by simpa using hcons)] at h
      exact getDataCore_ok conn r s delay force s2 d evs h
  · intro conn r s delay force d hcons hd
    exact getData_cached conn r s delay force d hcons hd
  · intro s q
    rfl
  · intro s c
    rfl
  · intro s g
    rfl
  · intro now s b s2 h
    rw [SVSeries.setBounds] at h
    split_ifs at h
    injection h with h1
    rw [← h1]
  · intro conn r s delay force hcons
    rw [getData_eq_core conn r s delay force hcons]
    exact getDataCore_has_call conn r s delay force

/-- C5 witness: a consistent cached container returns its cached series with
an empty trace, and every setter clears the flag on a concrete container. -/
theorem c5_cache_consistency_witness :
    SVSeries.getData c7conn c1r c5s 10 false = (c5s, .ok c5d, []) ∧
    (c5s.setQueries []).is_consistent = false ∧
    (c5s.setCategory 3).is_consistent = false ∧
    (c5s.setGranularity Granularity.HOUR).is_consistent = false :=
  ⟨c5_cache_consistency.2.1 c7conn c1r c5s 10 false c5d rfl rfl,
   c5_cache_consistency.2.2.1 c5s [],
   c5_cache_consistency.2.2.2.1 c5s 3,
   c5_cache_consistency.2.2.2.2.1 c5s Granularity.HOUR⟩

/-! ## Claim C6 -/

theorem no_warn_phase1 (conn : Conn) (category : Nat) (g : Granularity)
    (delay : ℚ) (r : ℕ → ℚ) (d : ℕ) (frags : List Fragment) (k : ℕ)
    (res : Except GsviErr (List (List Fragment))) (evs : List Event) (kk : ℕ)
    (h : runLayers conn category g delay r d frags k = (res, evs, kk))
    (base winner : List Fragment) :
    Event.warn ∉ evs ++ (normalizePass conn category g base winner).2 := by
  intro hmem
  rcases List.mem_append.mp hmem with hmem | hmem
  · rcases runLayers_events conn category g delay r d frags k res evs kk h _ hmem with
      ⟨c, _, hce⟩ | ⟨i, hce⟩ <;> simp at hce
  · obtain ⟨c, _, hce⟩ := normalizePass_events conn category g base winner _ hmem
    simp at hce

/-- C6: on a recomputing `get_data` run that succeeds, the emitted series is
truncated at `bounds.lower` exactly when `force_truncation` is set or the
stitched maximum's instant is at or above `bounds.lower`; in the remaining
case the un-truncated stitched series is returned and a warning event is
surfaced alongside the (still successful) result. -/
theorem c6_truncation_policy (conn : Conn) (r : ℕ → ℚ) (s : SVSeries) (delay : ℚ)
    (force : Bool) (s2 : SVSeries) (d : Data) (evs : List Event)
    (hnc : s.is_consistent = false)
    (hrun : SVSeries.getData conn r s delay force = (s2, .ok d, evs))
    (m : Int) (hmd : maxDate (SVSeries.preStitched conn r s delay) = some m) :
    ((force = true ∨ s.bounds.1 ≤ m) →
      d = truncateData (SVSeries.preStitched conn r s delay) s.bounds.1 ∧
      Event.warn ∉ evs) ∧
    (force = false → m < s.bounds.1 →
      d = SVSeries.preStitched conn r s delay ∧ Event.warn ∈ evs) := by
  rw [getData_eq_core conn r s delay force hnc] at hrun
  rw [SVSeries.getDataCore] at hrun
  rw [SVSeries.preStitched] at hmd ⊢
  by_cases h5 : s.baseLayer.length ≤ 5
  · rw [if_pos h5] at hrun hmd ⊢
    have ht := finish_truncation s s.buildIntervals s.baseLayer [s.baseLayer]
      (conn { frags := s.baseLayer, category := 0, granularity := s.granularity })
      [.call { frags := s.baseLayer, category := 0, granularity := s.granularity }]
      force m hmd
    rw [hrun] at ht
    dsimp only at ht
    constructor
    · intro hcase
      obtain ⟨hd1, he1⟩ := ht.1 hcase
      injection hd1 with hd2
      refine ⟨hd2, ?_⟩
      rw [he1]
      simp
    · intro hf hm2
      obtain ⟨hd1, he1⟩ := ht.2 hf hm2
      injection hd1 with hd2
      refine ⟨hd2, ?_⟩
      rw [he1]
      simp
  · rw [if_neg h5] at hrun hmd ⊢
    rcases hg : runLayers conn s.category s.granularity delay r
        (clog5 ((s.baseLayer.length + 4) / 5) + 1) s.baseLayer 0 with ⟨res1, evs1, kk1⟩
    rw [hg] at hrun hmd
    cases res1 with
    | error err =>
      dsimp only at hrun
      simp at hrun
    | ok layers =>
      dsimp only at hrun hmd ⊢
      have ht := finish_truncation s s.buildIntervals s.baseLayer (s.baseLayer :: layers)
        (normalizePass conn s.category s.granularity s.baseLayer (layers.getLastD [])).1
        (evs1 ++ (normalizePass conn s.category s.granularity s.baseLayer
          (layers.getLastD [])).2) force m hmd
      rw [hrun] at ht
      dsimp only at ht
      have hnw := no_warn_phase1 conn s.category s.granularity delay r _ s.baseLayer 0
        _ _ _ hg s.baseLayer (layers.getLastD [])
      constructor
      · intro hcase
        obtain ⟨hd1, he1⟩ := ht.1 hcase
        injection hd1 with hd2
        refine ⟨hd2, ?_⟩
        rw [he1]
        exact hnw
      · intro hf hm2
        obtain ⟨hd1, he1⟩ := ht.2 hf hm2
        injection hd1 with hd2
        refine ⟨hd2, ?_⟩
        rw [he1]
        exact List.mem_append_right _ (List.mem_cons_self _ _)

/-- C6 witness: a concrete shortcut run whose maximum sits at the lower bound,
so the series is truncated and no warning is surfaced. -/
theorem c6_truncation_policy_witness :
    c6pre = truncateData (SVSeries.preStitched c7conn c1r c7s 10) c7s.bounds.1 ∧
    Event.warn ∉ c6evs := by
  have h := c6_truncation_policy c7conn c1r c7s 10 false c6s2 c6pre c6evs rfl rfl 0 rfl
  exact h.1 (Or.inr (by decide))

/-! ## Claim C7 (code bug: the shortcut branch drops the category) -/

/-- C7 fails on the code: on the shortcut branch (base layer of at most 5
fragments) `get_data` calls `get_timeseries` without the `category` argument,
so the upstream sees the default category 0 even though the container's
category is 7.  The claim (and the spec) require the container's category on
every upstream call, as the tournament and normalization calls indeed do. -/
theorem c7_shortcut_omits_category :
    c7s.category = 7 ∧
    (c7s.getData c7conn c1r 10 false).2.2 =
      [Event.call { frags := [c6frag], category := 0, granularity := Granularity.DAY }] :=
  ⟨rfl, rfl⟩

/-! ## Claim C9 -/

/-- C9: under a draw stream bounded by a quarter of the (positive) delay in
absolute value — the image of `random.uniform(-0.25*delay, 0.25*delay)` —
every sleep event of a `get_data` run lasts `delay * (1 + u)` seconds for some
`u` in `[-1/4, 1/4]`, hence between `0.75*delay` and `1.25*delay`; and the
normalization pass emits no sleep events at all. -/
theorem c9_pacing (conn : Conn) (r : ℕ → ℚ) (s : SVSeries) (delay : ℚ) (force : Bool)
    (hd : 0 < delay) (hr : ∀ i, -(delay / 4) ≤ r i ∧ r i ≤ delay / 4) :
    (∀ q : ℚ, Event.sleep q ∈ (s.getData conn r delay force).2.2 →
      (∃ uu : ℚ, -(1/4 : ℚ) ≤ uu ∧ uu ≤ 1/4 ∧ q = delay * (1 + uu)) ∧
      3/4 * delay ≤ q ∧ q ≤ 5/4 * delay) ∧
    (∀ (category : Nat) (g : Granularity) (base winner : List Fragment),
      ∀ e ∈ (normalizePass conn category g base winner).2, isSleep e = false) := by
  constructor
  · intro q hq
    have hshape : ∃ i, q = delay + r i := by
      rcases getData_events_sub conn r s delay force with hemp | heq
      · rw [hemp] at hq
        simp at hq
      · rw [heq] at hq
        rcases getDataCore_events conn r s delay force _ hq with
          ⟨c, _, hce⟩ | ⟨i, hce⟩ | hce
        · simp at hce
        · simp only [Event.sleep.injEq] at hce
          exact ⟨i, hce⟩
        · simp at hce
    obtain ⟨i, hqi⟩ := hshape
    obtain ⟨hr1, hr2⟩ := hr i
    have hdne : delay ≠ 0 := ne_of_gt hd
    refine ⟨⟨r i / delay, ?_, ?_, ?_⟩, ?_, ?_⟩
    · rw [le_div_iff₀ hd]
      linarith
    · rw [div_le_iff₀ hd]
      linarith
    · rw [hqi]
      field_simp
    · rw [hqi]
      linarith
    · rw [hqi]
      linarith
  · intro category g base winner e he
    obtain ⟨c, _, hce⟩ := normalizePass_events conn category g base winner e he
    rw [hce]
    rfl

/-- C9 witness: with delay 10 and the zero draw stream the hypotheses hold,
and a concrete normalization event is a call, not a sleep. -/
theorem c9_pacing_witness :
    isSleep
      (Event.call { frags := [c1f 0, c1f 1], category := 0, granularity := Granularity.DAY })
      = false := by
  have h := c9_pacing allMaxConn c1r c7s 10 false (by norm_num)
    (by intro i; constructor <;> simp [c1r] <;> norm_num)
  refine h.2 0 Granularity.DAY [c1f 0] [c1f 1]
    (Event.call { frags := [c1f 0, c1f 1], category := 0, granularity := Granularity.DAY }) ?_
  have htr : (normalizePass allMaxConn 0 Granularity.DAY [c1f 0] [c1f 1]).2
      = [Event.call { frags := [c1f 0, c1f 1], category := 0, granularity := Granularity.DAY }] :=
    rfl
  rw [htr]
  exact List.mem_cons_self _ _

end Gsvi
